import Mathlib

/-!
# Verification of the NASA access-log ingestion pipeline

Shallow embedding of the two source files of the repository:

* `src/src/main/Python/converterData.py` — the Line Parser
  (`parse_log_line`, built on the pattern
  `(\S+) - - \[(.*?)\] "(.*?)" (\d{3}) (\d+|-)` used with `re.match`)
  and the Ingestion Driver (the module-level loop accumulating
  `parsed_data` and serializing it with `json.dump`).
* `src/src/main/Python/uploadFileDB.py` — the Fan-out Writer
  (`sanitize_key`, `load_data_to_in_memory_db`, `create_pg_table`).

Python regular-expression matching is embedded as an explicit
backtracking matcher specialised to the one pattern of the source:
greedy `\S+`, the literal ` - - [`, lazy `(.*?)` groups (a lazy group
first tries to close at the current character and only then consumes
it; `.` never matches a newline), `(\d{3})`, and the trailing greedy
alternation `(\d+|-)`.  Character classes are modelled on their ASCII
range (`\s` = space, tab, newline, carriage return, vertical tab, form
feed; `\d` = `0`-`9`), which covers every character the claims and the
log format involve.  Fallible Python operations (`int(...)`, dict
subscription raising `KeyError`) are modelled with `Except`/`Option`;
the JSON exchange file is modelled as the ordered list of key/value
mappings that `json.dump` writes and `json.load` reads back.
-/

namespace NasaLogs

/-- Python `\s` on its ASCII range (`re` module, as used by `\S` in the
pattern of `converterData.py` line 24 and by `\s+` in `sanitize_key`,
`uploadFileDB.py` line 25). -/
def pyIsSpace (c : Char) : Bool :=
  c = ' ' || c = '\t' || c = '\n' || c = '\r' || c = '\x0b' || c = '\x0c'

/-- Value of one decimal digit character (used to model Python `int`). -/
def digitVal (c : Char) : Nat :=
  c.toNat - 48

/-- Value of a run of decimal digit characters, most significant first
(the value Python `int` returns on a digit string). -/
def digitsVal (ds : List Char) : Int :=
  Int.ofNat (ds.foldl (fun a c => 10 * a + digitVal c) 0)

/-- Python `int(s)` restricted to the shapes that can reach it here: an
optional leading minus sign followed by a run of digits; anything else
raises `ValueError`, modelled as `Except.error`.  (Python also accepts
surrounding whitespace, a plus sign and digit-group underscores; no
caller in the source can pass those, so they are not modelled.) -/
def pyInt (s : String) : Except Unit Int :=
  match s.data with
  | [] => .error ()
  | c :: cs =>
      if c = '-' then
        if !cs.isEmpty && cs.all Char.isDigit then .ok (-digitsVal cs) else .error ()
      else
        if (c :: cs).all Char.isDigit then .ok (digitsVal (c :: cs)) else .error ()

/-! ## The regular-expression matcher

`converterData.py` line 24: `pattern = r'(\S+) - - \[(.*?)\] "(.*?)" (\d{3}) (\d+|-)'`,
applied with `re.match` (anchored at the start, a prefix match). -/

/-- Tail of the pattern after the space following the status group: the
greedy alternation `(\d+|-)`.  `\d+` takes the maximal digit run (the
pattern ends after it, so greediness never backtracks); if no digit is
present the single `-` alternative is tried. -/
def matchBytes (s : List Char) : Option String :=
  if (s.takeWhile Char.isDigit).isEmpty then
    match s with
    | c :: _ => if c = '-' then some "-" else none
    | [] => none
  else some ⟨s.takeWhile Char.isDigit⟩

/-- Pattern tail `(\d{3}) (\d+|-)`: exactly three digit characters, a
space, then the bytes token.  Returns the captures of groups 4 and 5. -/
def matchStatusBytes (s : List Char) : Option (String × String) :=
  match s with
  | c1 :: c2 :: c3 :: c4 :: rest =>
      if c1.isDigit && c2.isDigit && c3.isDigit && c4 = ' ' then
        (matchBytes rest).map (fun b => (⟨[c1, c2, c3]⟩, b))
      else none
  | _ => none

/-- Closing attempt of the lazy request group: the pattern after
`(.*?)` of group 3 is `" (\d{3}) (\d+|-)`; `reqClose acc rest` is tried
when the current character is the closing `"`, with `rest` the input
after it and `acc` the group contents in reverse. -/
def reqClose (acc rest : List Char) : Option (String × String × String) :=
  match rest with
  | c1 :: rest2 =>
      if c1 = ' ' then
        (matchStatusBytes rest2).map (fun p => (⟨acc.reverse⟩, p.1, p.2))
      else none
  | [] => none

/-- Lazy scan of group 3, `(.*?)` before `" (\d{3}) (\d+|-)`: at each
position first try to close at a `"`, and only if the continuation
fails consume the character (any character but a newline) and go on. -/
def reqLoop : List Char → List Char → Option (String × String × String)
  | _, [] => none
  | acc, c :: rest =>
      (if c = '\"' then reqClose acc rest else none).orElse
        (fun _ => if c = '\n' then none else reqLoop (c :: acc) rest)

/-- Closing attempt of the lazy timestamp group: the pattern after
`(.*?)` of group 2 is `\] "(.*?)" ...`; tried when the current
character is `]`, with `rest` the input after it. -/
def tsClose (acc rest : List Char) : Option (String × String × String × String) :=
  match rest with
  | c1 :: c2 :: rest2 =>
      if c1 = ' ' && c2 = '\"' then
        (reqLoop [] rest2).map (fun p => (⟨acc.reverse⟩, p.1, p.2.1, p.2.2))
      else none
  | _ => none

/-- Lazy scan of group 2, `(.*?)` before `\] "...`: same discipline as
`reqLoop`. -/
def tsLoop : List Char → List Char → Option (String × String × String × String)
  | _, [] => none
  | acc, c :: rest =>
      (if c = ']' then tsClose acc rest else none).orElse
        (fun _ => if c = '\n' then none else tsLoop (c :: acc) rest)

/-- The five captures of a successful match of the pattern. -/
structure Groups where
  g1 : String
  g2 : String
  g3 : String
  g4 : String
  g5 : String
deriving DecidableEq, Repr

/-- Rest of the match once the host candidate is fixed: `host` must be
non-empty (`\S+`), then the literal ` - - [`, then the lazy groups.  A
shorter host candidate would put a non-whitespace character against
the literal space, so only the maximal run can succeed. -/
def matchAfterHost (host rest0 : List Char) : Option Groups :=
  if host.isEmpty then none
  else
    match rest0 with
    | c1 :: c2 :: c3 :: c4 :: c5 :: c6 :: rest =>
        if c1 = ' ' && c2 = '-' && c3 = ' ' && c4 = '-' && c5 = ' ' && c6 = '[' then
          (tsLoop [] rest).map
            (fun p => ⟨⟨host⟩, p.1, p.2.1, p.2.2.1, p.2.2.2⟩)
        else none
    | _ => none

/-- `re.match(pattern, line)`: anchored at the start of `line`, a
prefix of the line suffices.  Group 1 (`\S+`, greedy) is the maximal
run of non-whitespace characters at the start. -/
def regexMatch (line : String) : Option Groups :=
  matchAfterHost
    (line.data.takeWhile (fun c => !(pyIsSpace c)))
    (line.data.dropWhile (fun c => !(pyIsSpace c)))

/-! ## The Record model and `parse_log_line` -/

/-- One parsed log entry, with the field names of the dict built at
`converterData.py` lines 39-45 (the spec's `status_code` is the
source's `http_reply_code`). -/
structure Record where
  host : String
  timestamp : String
  request : String
  http_reply_code : Int
  bytes : Int
deriving DecidableEq, Repr

/-- Post-processing of a successful match (`converterData.py` lines
28-46): `int` on group 4, the dash-to-zero normalization and `int` on
group 5, then the dict.  A `ValueError` from `int` propagates. -/
def parse_groups (g : Groups) : Except Unit Record :=
  match pyInt g.g4 with
  | .error e => .error e
  | .ok code =>
      match (if g.g5 = "-" then Except.ok 0 else pyInt g.g5) with
      | .error e => .error e
      | .ok b =>
          .ok { host := g.g1, timestamp := g.g2, request := g.g3,
                http_reply_code := code, bytes := b }

/-- `parse_log_line` (`converterData.py` lines 23-48): `.ok none` is
the `return None` of a failed match, `.ok (some r)` a parsed Record,
`.error` an uncaught exception escaping the function. -/
def parse_log_line (line : String) : Except Unit (Option Record) :=
  match regexMatch line with
  | none => .ok none
  | some g => (parse_groups g).map some

/-! ## The Ingestion Driver -/

/-- The accumulation loop of `converterData.py` lines 50-55: parse each
line in order, append each parsed Record, silently skip `None`; an
exception escaping `parse_log_line` aborts the program. -/
def ingestAux (acc : List Record) : List String → Except Unit (List Record)
  | [] => .ok acc
  | l :: ls =>
      match parse_log_line l with
      | .error e => .error e
      | .ok none => ingestAux acc ls
      | .ok (some r) => ingestAux (acc ++ [r]) ls

/-- `parsed_data`, the full ordered sequence the driver accumulates and
then serializes once to the exchange file. -/
def parsed_data (lines : List String) : Except Unit (List Record) :=
  ingestAux [] lines

/-! ## The intermediate exchange form

`converterData.py` lines 57-58 serialize `parsed_data` with
`json.dump`; `uploadFileDB.py` lines 28-29 read it back with
`json.load`.  The document is a JSON array of flat objects whose
values here are strings and integers; it is modelled as the ordered
list of key/value mappings, `json.dump`/`json.load` being the
identity on that abstract document (insertion order of Python dicts
is preserved by both). -/

/-- A JSON value occurring in the exchange form: a string or an
integer. -/
inductive JValue where
  | s (v : String)
  | i (v : Int)
deriving DecidableEq, Repr

/-- One serialized Record: the ordered key/value mapping `json.dump`
writes for one entry of `parsed_data`. -/
abbrev Entry := List (String × JValue)

/-- Serialization of one Record, in the key order of the dict literal
at `converterData.py` lines 39-45. -/
def toEntry (r : Record) : Entry :=
  [("host", .s r.host), ("timestamp", .s r.timestamp), ("request", .s r.request),
   ("http_reply_code", .i r.http_reply_code), ("bytes", .i r.bytes)]

/-- Python dict subscription `entry[k]` on the loaded mapping, as an
`Option` (a missing key raises `KeyError`, modelled `none`). -/
def lookupJ (k : String) : Entry → Option JValue
  | [] => none
  | (k2, v) :: rest => if k2 = k then some v else lookupJ k rest

/-- Read a string-valued field back. -/
def asStr : Option JValue → Option String
  | some (.s v) => some v
  | _ => none

/-- Read an integer-valued field back. -/
def asInt : Option JValue → Option Int
  | some (.i v) => some v
  | _ => none

/-- Deserialization: rebuild the Record from the five fields of a
loaded exchange entry. -/
def ofEntry (e : Entry) : Option Record := do
  let h ← asStr (lookupJ "host" e)
  let t ← asStr (lookupJ "timestamp" e)
  let rq ← asStr (lookupJ "request" e)
  let c ← asInt (lookupJ "http_reply_code" e)
  let b ← asInt (lookupJ "bytes" e)
  pure ⟨h, t, rq, c, b⟩

/-! ## The Fan-out Writer (`uploadFileDB.py`) -/

/-- Body of `re.sub(r'\s+', '_', key)`: each maximal run of whitespace
characters becomes a single underscore; `inRun` records whether the
previous character was part of a whitespace run already replaced. -/
def subWsAux : Bool → List Char → List Char
  | _, [] => []
  | inRun, c :: cs =>
      if pyIsSpace c then
        if inRun then subWsAux true cs else '_' :: subWsAux true cs
      else c :: subWsAux false cs

/-- `sanitize_key` (`uploadFileDB.py` lines 24-25). -/
def sanitize_key (key : String) : String :=
  ⟨subWsAux false key.data⟩

/-- Python `f"{v}"` on a loaded JSON value. -/
def jstr : JValue → String
  | .s v => v
  | .i v => toString v

/-- `unique_key = f"{entry['host']}:{entry['timestamp']}"`
(`uploadFileDB.py` line 32); `none` models the `KeyError` a missing
field would raise. -/
def unique_key (e : Entry) : Option String := do
  let hv ← lookupJ "host" e
  let tv ← lookupJ "timestamp" e
  pure (jstr hv ++ ":" ++ jstr tv)

/-- `sanitized_key = sanitize_key(unique_key)` (`uploadFileDB.py`
line 33): the deduplication key addressing all key-value backends. -/
def dedupKey (e : Entry) : Option String :=
  (unique_key e).map sanitize_key

/-- Update-or-append on an ordered association list: the effect of a
keyed `SET` on a key-value backend. -/
def updStore {α : Type} : List (String × α) → String → α → List (String × α)
  | [], k, v => [(k, v)]
  | (k2, v2) :: rest, k, v =>
      if k2 = k then (k2, v) :: rest else (k2, v2) :: updStore rest k v

/-- Read a key of a backend. -/
def lookupStore {α : Type} (k : String) : List (String × α) → Option α
  | [] => none
  | (k2, v) :: rest => if k2 = k then some v else lookupStore k rest

/-- Redis `HSET key mapping=entry` on the existing field set of the
hash: every field of `entry` is written, fields not named by `entry`
are left in place. -/
def hsetMapping (fields : List (String × JValue)) (e : Entry) : List (String × JValue) :=
  e.foldl (fun fs kv => updStore fs kv.1 kv.2) fields

/-- One row of the `nasa_logs` table, with the `id SERIAL PRIMARY KEY`
the schema generates and the five data columns of the insert. -/
structure PgRow where
  id : Nat
  host : JValue
  timestamp : JValue
  request : JValue
  status : JValue
  bytes_sent : JValue
deriving DecidableEq, Repr

/-- Column accessor of a row, by column name. -/
def colVal (r : PgRow) (c : String) : Option JValue :=
  if c = "id" then some (.i r.id) else
  if c = "host" then some r.host else
  if c = "timestamp" then some r.timestamp else
  if c = "request" then some r.request else
  if c = "status" then some r.status else
  if c = "bytes_sent" then some r.bytes_sent else none

/-- The uniqueness constraints `create_pg_table` (`uploadFileDB.py`
lines 63-75) declares on `nasa_logs`: only the primary key on the
auto-generated `id` column; no data column is constrained. -/
def create_pg_table : List (List String) :=
  [["id"]]

/-- `INSERT ... ON CONFLICT DO NOTHING` against the declared schema:
the row is skipped exactly when some existing row agrees with it on
every column of some declared uniqueness constraint; the serial `id`
of a new row is one past the current row count. -/
def pgInsert (tbl : List PgRow) (h t rq sc bs : JValue) : List PgRow :=
  let row : PgRow := ⟨tbl.length + 1, h, t, rq, sc, bs⟩
  if tbl.any (fun old =>
      create_pg_table.any (fun cs => cs.all (fun c => colVal old c == colVal row c))) then
    tbl
  else tbl ++ [row]

/-- State of the four backends: the Redis hash store (`redis_client`,
field-mapped), the flat Redis store (`redis_simple_client`), Memcached
(`memcached_client`), and the visible rows of the `nasa_logs` table. -/
structure WriterState where
  redis_client : List (String × List (String × JValue))
  redis_simple_client : List (String × Entry)
  memcached_client : List (String × Entry)
  nasa_logs : List PgRow
deriving DecidableEq, Repr

/-- All backends empty. -/
def initState : WriterState :=
  ⟨[], [], [], []⟩

/-- The three key-value writes of one loop iteration
(`uploadFileDB.py` lines 37-41): `hset` with the entry as field
mapping, and the two flat `set`s of the entry's serialized form. -/
def kvWrites (st : WriterState) (key : String) (e : Entry) : WriterState :=
  { st with
    redis_client :=
      updStore st.redis_client key (hsetMapping ((lookupStore key st.redis_client).getD []) e),
    redis_simple_client := updStore st.redis_simple_client key e,
    memcached_client := updStore st.memcached_client key e }

/-- The five parameters of the insert (`uploadFileDB.py` lines 48-57):
`entry['host']`, `entry['timestamp']`, `entry['request']`,
`entry['status']`, `entry['bytes_sent']`; `none` models the `KeyError`
a missing key raises. -/
def pgRowValues (e : Entry) : Option (JValue × JValue × JValue × JValue × JValue) := do
  let h ← lookupJ "host" e
  let t ← lookupJ "timestamp" e
  let rq ← lookupJ "request" e
  let sc ← lookupJ "status" e
  let bs ← lookupJ "bytes_sent" e
  pure (h, t, rq, sc, bs)

/-- One iteration of the writer loop (`uploadFileDB.py` lines 31-57):
compute the deduplication key, issue the three key-value writes, then
attempt the relational insert.  `.error` carries the backend state at
the point the uncaught `KeyError` escapes. -/
def writerStep (st : WriterState) (e : Entry) : Except WriterState WriterState :=
  match dedupKey e with
  | none => .error st
  | some key =>
      let st1 := kvWrites st key e
      match pgRowValues e with
      | none => .error st1
      | some (h, t, rq, sc, bs) =>
          .ok { st1 with nasa_logs := pgInsert st1.nasa_logs h t rq sc bs }

/-- The loop over all exchange entries with the single
`pg_conn.commit()` after it: on normal completion the inserted rows
are committed (`Bool` result `true`); an uncaught exception aborts the
run before the commit, so the uncommitted relational inserts are
discarded while the key-value writes already issued persist. -/
def loadAux (st : WriterState) : List Entry → WriterState × Bool
  | [] => (st, true)
  | e :: rest =>
      match writerStep st e with
      | .ok st2 => loadAux st2 rest
      | .error stp => ({ stp with nasa_logs := [] }, false)

/-- `load_data_to_in_memory_db` (`uploadFileDB.py` lines 27-61) on the
loaded exchange document. -/
def load_data_to_in_memory_db (entries : List Entry) : WriterState × Bool :=
  loadAux initState entries

/-- Sample Record for the duplicate-key scenario of the spec: same
host and timestamp as `sampleRec2`, different request. -/
def sampleRec1 : Record :=
  { host := "h", timestamp := "t", request := "GET /a HTTP/1.0",
    http_reply_code := 200, bytes := 1 }

/-- Second sample Record of the duplicate-key scenario. -/
def sampleRec2 : Record :=
  { host := "h", timestamp := "t", request := "GET /b HTTP/1.0",
    http_reply_code := 404, bytes := 2 }

/-- The Fan-out Writer run on the two colliding sample Records. -/
def sampleRun : WriterState × Bool :=
  load_data_to_in_memory_db [toEntry sampleRec1, toEntry sampleRec2]

/-! ## Invariants of the matcher -/

/-- Shape the pattern guarantees for the status capture (group 4):
exactly three digit characters. -/
def statusTokOk (s : String) : Bool :=
  (s.data.length == 3) && s.data.all Char.isDigit

/-- Shape the pattern guarantees for the bytes capture (group 5): the
single dash, or a non-empty run of digits. -/
def bytesTokOk (b : String) : Bool :=
  (b == "-") || (!b.data.isEmpty && b.data.all Char.isDigit)

theorem orElse_cases {α : Type} {a : Option α} {f : Unit → Option α} {v : α}
    (h : a.orElse f = some v) : a = some v ∨ (a = none ∧ f () = some v) := by
  cases a with
  | none => exact Or.inr ⟨rfl, h⟩
  | some w => exact Or.inl h

theorem takeWhile_all {p : Char → Bool} :
    ∀ l : List Char, (l.takeWhile p).all p = true := by
  intro l
  induction l with
  | nil => rfl
  | cons c cs ih =>
      by_cases hc : p c = true
      · rw [List.takeWhile_cons, if_pos hc, List.all_cons, hc, ih]
        rfl
      · rw [List.takeWhile_cons, if_neg hc]
        rfl

theorem matchBytes_ok {s : List Char} {b : String}
    (h : matchBytes s = some b) : bytesTokOk b = true := by
  unfold matchBytes at h
  by_cases hrun : (s.takeWhile Char.isDigit).isEmpty = true
  · rw [if_pos hrun] at h
    rcases s with _ | ⟨c, rest⟩
    · exact absurd h (by simp)
    · have h2 : (if c = '-' then some "-" else (none : Option String)) = some b := h
      by_cases hc : c = '-'
      · rw [if_pos hc] at h2
        cases h2
        rfl
      · rw [if_neg hc] at h2
        exact absurd h2 (by simp)
  · rw [if_neg hrun] at h
    cases h
    simp only [bytesTokOk, Bool.or_eq_true, Bool.and_eq_true]
    exact Or.inr ⟨by simpa using hrun, takeWhile_all s⟩

theorem matchStatusBytes_ok {s : List Char} {st b : String}
    (h : matchStatusBytes s = some (st, b)) :
    statusTokOk st = true ∧ bytesTokOk b = true := by
  unfold matchStatusBytes at h
  split at h
  · rename_i c1 c2 c3 c4 rest
    split at h
    · rename_i hcond
      rcases hmb : matchBytes rest with _ | b2
      · rw [hmb] at h; exact absurd h (by simp)
      · rw [hmb] at h
        simp only [Option.map_some', Option.some.injEq, Prod.mk.injEq] at h
        obtain ⟨hst, hb⟩ := h
        subst hst; subst hb
        simp only [Bool.and_eq_true, decide_eq_true_eq] at hcond
        obtain ⟨⟨⟨hc1, hc2⟩, hc3⟩, -⟩ := hcond
        refine ⟨?_, matchBytes_ok hmb⟩
        simp [statusTokOk, hc1, hc2, hc3]
    · exact absurd h (by simp)
  · exact absurd h (by simp)

theorem reqClose_ok {acc rest : List Char} {rq st b : String}
    (h : reqClose acc rest = some (rq, st, b)) :
    statusTokOk st = true ∧ bytesTokOk b = true := by
  unfold reqClose at h
  split at h
  · split at h
    · rcases hmb : matchStatusBytes _ with _ | p
      · rw [hmb] at h; exact absurd h (by simp)
      · rw [hmb] at h
        simp only [Option.map_some', Option.some.injEq, Prod.mk.injEq] at h
        obtain ⟨-, h2, h3⟩ := h
        subst h2; subst h3
        exact matchStatusBytes_ok hmb
    · exact absurd h (by simp)
  · exact absurd h (by simp)

theorem reqLoop_ok :
    ∀ {s acc : List Char} {rq st b : String},
      reqLoop acc s = some (rq, st, b) →
      statusTokOk st = true ∧ bytesTokOk b = true := by
  intro s
  induction s with
  | nil => intro acc rq st b h; exact absurd h (by simp [reqLoop])
  | cons c rest ih =>
      intro acc rq st b h
      simp only [reqLoop] at h
      rcases orElse_cases h with h1 | ⟨-, h2⟩
      · split at h1
        · exact reqClose_ok h1
        · exact absurd h1 (by simp)
      · split at h2
        · exact absurd h2 (by simp)
        · exact ih h2

theorem tsClose_ok {acc rest : List Char} {ts rq st b : String}
    (h : tsClose acc rest = some (ts, rq, st, b)) :
    statusTokOk st = true ∧ bytesTokOk b = true := by
  unfold tsClose at h
  split at h
  · split at h
    · rcases hr : reqLoop [] _ with _ | p
      · rw [hr] at h; exact absurd h (by simp)
      · rw [hr] at h
        simp only [Option.map_some', Option.some.injEq, Prod.mk.injEq] at h
        obtain ⟨-, h2, h3, h4⟩ := h
        obtain ⟨p1, p2, p3⟩ := p
        subst h2; subst h3; subst h4
        exact reqLoop_ok hr
    · exact absurd h (by simp)
  · exact absurd h (by simp)

theorem tsLoop_ok :
    ∀ {s acc : List Char} {ts rq st b : String},
      tsLoop acc s = some (ts, rq, st, b) →
      statusTokOk st = true ∧ bytesTokOk b = true := by
  intro s
  induction s with
  | nil => intro acc ts rq st b h; exact absurd h (by simp [tsLoop])
  | cons c rest ih =>
      intro acc ts rq st b h
      simp only [tsLoop] at h
      rcases orElse_cases h with h1 | ⟨-, h2⟩
      · split at h1
        · exact tsClose_ok h1
        · exact absurd h1 (by simp)
      · split at h2
        · exact absurd h2 (by simp)
        · exact ih h2

theorem regexMatch_ok {line : String} {g : Groups}
    (h : regexMatch line = some g) :
    statusTokOk g.g4 = true ∧ bytesTokOk g.g5 = true := by
  unfold regexMatch matchAfterHost at h
  split at h
  · exact absurd h (by simp)
  · split at h
    · split at h
      · rcases ht : tsLoop [] _ with _ | p
        · rw [ht] at h; exact absurd h (by simp)
        · rw [ht] at h
          simp only [Option.map_some', Option.some.injEq] at h
          obtain ⟨p1, p2, p3, p4⟩ := p
          subst h
          exact tsLoop_ok ht
      · exact absurd h (by simp)
    · exact absurd h (by simp)

/-! ## Totality of the post-processing -/

theorem digitsVal_nonneg (ds : List Char) : 0 ≤ digitsVal ds :=
  Int.ofNat_nonneg _

theorem pyInt_digits {s : String} {c : Char} {cs : List Char}
    (hd : s.data = c :: cs) (h2 : (c :: cs).all Char.isDigit = true) :
    pyInt s = .ok (digitsVal (c :: cs)) := by
  have hc : c.isDigit = true := by
    simp only [List.all_cons, Bool.and_eq_true] at h2
    exact h2.1
  have hne : ¬ c = '-' := by
    intro he
    rw [he] at hc
    exact absurd hc (by decide)
  simp only [pyInt, hd]
  rw [if_neg hne, if_pos h2]

theorem pyInt_all_digits {l : List Char} (hne : l ≠ []) (hdig : l.all Char.isDigit = true) :
    pyInt ⟨l⟩ = .ok (digitsVal l) := by
  rcases l with _ | ⟨c, cs⟩
  · exact absurd rfl hne
  · exact pyInt_digits rfl hdig

theorem parse_groups_ok {g : Groups}
    (h4 : statusTokOk g.g4 = true) (h5 : bytesTokOk g.g5 = true) :
    ∃ r : Record, parse_groups g = .ok r ∧ 0 ≤ r.bytes ∧ (g.g5 = "-" → r.bytes = 0) := by
  simp only [statusTokOk, Bool.and_eq_true, beq_iff_eq] at h4
  rcases hd4 : g.g4.data with _ | ⟨c, cs⟩
  · rw [hd4] at h4; exact absurd h4.1 (by simp)
  · have hpy4 : pyInt g.g4 = .ok (digitsVal (c :: cs)) :=
      pyInt_digits hd4 (by rw [← hd4]; exact h4.2)
    by_cases h5d : g.g5 = "-"
    · refine ⟨{ host := g.g1, timestamp := g.g2, request := g.g3,
                http_reply_code := digitsVal (c :: cs), bytes := 0 },
              ?_, le_refl 0, fun _ => rfl⟩
      simp only [parse_groups, hpy4, if_pos h5d]
    · simp only [bytesTokOk, Bool.or_eq_true, beq_iff_eq, Bool.and_eq_true] at h5
      rcases h5 with h5 | ⟨h5ne, h5dig⟩
      · exact absurd h5 h5d
      · rcases hd5 : g.g5.data with _ | ⟨e, es⟩
        · rw [hd5] at h5ne; exact absurd h5ne (by decide)
        · have hpy5 : pyInt g.g5 = .ok (digitsVal (e :: es)) :=
            pyInt_digits hd5 (by rw [← hd5]; exact h5dig)
          refine ⟨{ host := g.g1, timestamp := g.g2, request := g.g3,
                    http_reply_code := digitsVal (c :: cs), bytes := digitsVal (e :: es) },
                  ?_, digitsVal_nonneg _, fun hcon => absurd hcon h5d⟩
          simp only [parse_groups, hpy4, if_neg h5d, hpy5]

theorem parse_log_line_of_match {line : String} {g : Groups}
    (h : regexMatch line = some g) :
    parse_log_line line = (parse_groups g).map some := by
  unfold parse_log_line
  rw [h]

/-! ## Shape of a conforming line prefix -/

theorem takeWhile_append_stop {p : Char → Bool} {x : Char} (hx : p x = false) :
    ∀ (h r : List Char), (∀ c ∈ h, p c = true) →
      (h ++ x :: r).takeWhile p = h ∧ (h ++ x :: r).dropWhile p = x :: r := by
  intro h
  induction h with
  | nil =>
      intro r _
      constructor
      · rw [List.nil_append, List.takeWhile_cons, hx]
        rfl
      · rw [List.nil_append, List.dropWhile_cons, hx]
        rfl
  | cons c h ih =>
      intro r hall
      have hc : p c = true := hall c (List.mem_cons_self _ _)
      obtain ⟨iht, ihd⟩ := ih r (fun d hd => hall d (List.mem_cons_of_mem _ hd))
      constructor
      · rw [List.cons_append, List.takeWhile_cons, hc]
        simp [iht]
      · rw [List.cons_append, List.dropWhile_cons, hc]
        exact ihd

theorem takeWhile_append_all {p : Char → Bool} :
    ∀ (h e : List Char), (∀ c ∈ h, p c = true) →
      (h ++ e).takeWhile p = h ++ e.takeWhile p := by
  intro h
  induction h with
  | nil => intro e _; simp
  | cons c h ih =>
      intro e hall
      have hc : p c = true := hall c (List.mem_cons_self _ _)
      rw [List.cons_append, List.takeWhile_cons, hc, ih e (fun d hd => hall d (List.mem_cons_of_mem _ hd))]
      rfl

theorem matchBytes_shape {b extra : List Char}
    (hb : b = ['-'] ∨ (b ≠ [] ∧ b.all Char.isDigit = true))
    (hx : b = ['-'] ∨ (∀ c, extra.head? = some c → c.isDigit = false)) :
    matchBytes (b ++ extra) = some (if b = ['-'] then "-" else ⟨b⟩) := by
  rcases hb with rfl | ⟨hne, hdig⟩
  · rw [if_pos rfl]
    unfold matchBytes
    rw [List.singleton_append, List.takeWhile_cons]
    rw [if_neg (show ¬('-'.isDigit = true) by decide)]
    rw [if_pos (show (List.isEmpty [] = true) from rfl)]
    rfl
  · have hbne : ¬ b = ['-'] := by
      intro he
      rw [he] at hdig
      exact absurd hdig (by decide)
    have hxd : ∀ c, extra.head? = some c → c.isDigit = false := by
      rcases hx with hx | hx
      · exact absurd hx hbne
      · exact hx
    have htw : (b ++ extra).takeWhile Char.isDigit = b := by
      rw [takeWhile_append_all b extra (fun c hc => by
        have := List.all_eq_true.mp hdig c hc
        simpa using this)]
      rcases extra with _ | ⟨e, es⟩
      · simp
      · rw [List.takeWhile_cons, hxd e rfl]
        simp
    rw [if_neg hbne]
    unfold matchBytes
    rw [htw]
    rcases b with _ | ⟨c, cs⟩
    · exact absurd rfl hne
    · rw [if_neg (by simp)]

theorem matchStatusBytes_shape {d1 d2 d3 : Char} {b extra : List Char}
    (h1 : d1.isDigit = true) (h2 : d2.isDigit = true) (h3 : d3.isDigit = true)
    (hb : b = ['-'] ∨ (b ≠ [] ∧ b.all Char.isDigit = true))
    (hx : b = ['-'] ∨ (∀ c, extra.head? = some c → c.isDigit = false)) :
    matchStatusBytes (d1 :: d2 :: d3 :: ' ' :: (b ++ extra)) =
      some (⟨[d1, d2, d3]⟩, if b = ['-'] then "-" else ⟨b⟩) := by
  simp [matchStatusBytes, h1, h2, h3, matchBytes_shape hb hx]

theorem reqLoop_shape :
    ∀ (q : List Char), (∀ c ∈ q, c ≠ '\"' ∧ c ≠ '\n') →
      ∀ (acc r : List Char) (p : String × String),
        matchStatusBytes r = some p →
        reqLoop acc (q ++ '\"' :: ' ' :: r) = some (⟨acc.reverse ++ q⟩, p.1, p.2) := by
  intro q
  induction q with
  | nil =>
      intro _ acc r p hm
      rw [List.nil_append]
      simp only [reqLoop, reqClose, if_pos rfl, hm, Option.map_some']
      simp [Option.orElse]
  | cons c q ih =>
      intro hq acc r p hm
      have hc := hq c (List.mem_cons_self _ _)
      have ih2 := ih (fun d hd => hq d (List.mem_cons_of_mem _ hd)) (c :: acc) r p hm
      rw [List.cons_append]
      simp only [reqLoop, if_neg hc.1]
      simp only [Option.orElse, if_neg hc.2, ih2]
      simp [List.append_assoc]

theorem tsLoop_shape :
    ∀ (t : List Char), (∀ c ∈ t, c ≠ ']' ∧ c ≠ '\n') →
      ∀ (acc r : List Char) (p : String × String × String),
        reqLoop [] r = some p →
        tsLoop acc (t ++ ']' :: ' ' :: '\"' :: r) = some (⟨acc.reverse ++ t⟩, p.1, p.2.1, p.2.2) := by
  intro t
  induction t with
  | nil =>
      intro _ acc r p hr
      rw [List.nil_append]
      simp only [tsLoop, tsClose, if_pos rfl, hr, Option.map_some']
      simp [Option.orElse]
  | cons c t ih =>
      intro ht acc r p hr
      have hc := ht c (List.mem_cons_self _ _)
      have ih2 := ih (fun d hd => ht d (List.mem_cons_of_mem _ hd)) (c :: acc) r p hr
      rw [List.cons_append]
      simp only [tsLoop, if_neg hc.1]
      simp only [Option.orElse, if_neg hc.2, ih2]
      simp [List.append_assoc]

theorem regexMatch_mk (l : List Char) :
    regexMatch ⟨l⟩ =
      matchAfterHost (l.takeWhile fun c => !(pyIsSpace c)) (l.dropWhile fun c => !(pyIsSpace c)) :=
  rfl

theorem regexMatch_shape {h t q : List Char} {d1 d2 d3 : Char} {b extra : List Char}
    (hh1 : h ≠ []) (hh2 : ∀ c ∈ h, pyIsSpace c = false)
    (ht : ∀ c ∈ t, c ≠ ']' ∧ c ≠ '\n')
    (hq : ∀ c ∈ q, c ≠ '\"' ∧ c ≠ '\n')
    (h1 : d1.isDigit = true) (h2 : d2.isDigit = true) (h3 : d3.isDigit = true)
    (hb : b = ['-'] ∨ (b ≠ [] ∧ b.all Char.isDigit = true))
    (hx : b = ['-'] ∨ (∀ c, extra.head? = some c → c.isDigit = false)) :
    regexMatch ⟨h ++ ' ' :: '-' :: ' ' :: '-' :: ' ' :: '[' ::
        (t ++ ']' :: ' ' :: '\"' :: (q ++ '\"' :: ' ' ::
          (d1 :: d2 :: d3 :: ' ' :: (b ++ extra))))⟩ =
      some ⟨⟨h⟩, ⟨t⟩, ⟨q⟩, ⟨[d1, d2, d3]⟩, if b = ['-'] then "-" else ⟨b⟩⟩ := by
  have hmsb := matchStatusBytes_shape h1 h2 h3 hb hx
  have hreq := reqLoop_shape q hq [] _ _ hmsb
  have hts := tsLoop_shape t ht [] _ _ hreq
  obtain ⟨htw, hdw⟩ :=
    takeWhile_append_stop (p := fun c => !(pyIsSpace c)) (x := ' ') (by decide) h _
      (fun c hc => by simp [hh2 c hc])
  have hhe : h.isEmpty = false := by
    cases h with
    | nil => exact absurd rfl hh1
    | cons a l => rfl
  rw [regexMatch_mk, htw, hdw]
  simp [matchAfterHost, hhe, hts]

theorem parse_of_shape {h t q : List Char} {d1 d2 d3 : Char} {b extra : List Char}
    (hh1 : h ≠ []) (hh2 : ∀ c ∈ h, pyIsSpace c = false)
    (ht : ∀ c ∈ t, c ≠ ']' ∧ c ≠ '\n')
    (hq : ∀ c ∈ q, c ≠ '\"' ∧ c ≠ '\n')
    (h1 : d1.isDigit = true) (h2 : d2.isDigit = true) (h3 : d3.isDigit = true)
    (hb : b = ['-'] ∨ (b ≠ [] ∧ b.all Char.isDigit = true))
    (hx : b = ['-'] ∨ (∀ c, extra.head? = some c → c.isDigit = false)) :
    parse_log_line ⟨h ++ ' ' :: '-' :: ' ' :: '-' :: ' ' :: '[' ::
        (t ++ ']' :: ' ' :: '\"' :: (q ++ '\"' :: ' ' ::
          (d1 :: d2 :: d3 :: ' ' :: (b ++ extra))))⟩ =
      .ok (some ⟨⟨h⟩, ⟨t⟩, ⟨q⟩, digitsVal [d1, d2, d3],
        if b = ['-'] then 0 else digitsVal b⟩) := by
  have hm := regexMatch_shape hh1 hh2 ht hq h1 h2 h3 hb hx
  rw [parse_log_line_of_match hm]
  have hpy4 : pyInt ⟨[d1, d2, d3]⟩ = .ok (digitsVal [d1, d2, d3]) :=
    pyInt_digits rfl (by simp [h1, h2, h3])
  by_cases hbd : b = ['-']
  · simp only [if_pos hbd]
    simp [parse_groups, hpy4, Except.map]
  · rcases hb with hb | ⟨hne, hdig⟩
    · exact absurd hb hbd
    · have hpy5 : pyInt ⟨b⟩ = .ok (digitsVal b) := pyInt_all_digits hne hdig
      have hsne : ¬ (⟨b⟩ : String) = "-" := by
        intro hcon
        apply hbd
        have hdata : b = "-".data := congrArg String.data hcon
        simpa using hdata
      rw [if_neg hbd, if_neg hbd]
      simp [parse_groups, hpy4, hpy5, hsne, Except.map]

/-! ## The claims -/

/-- C4: parsing the line
`198.0.0.1 - - [01/Jul/1995:00:00:01 -0400] "GET /index.html HTTP/1.0" 200 1024`
produces exactly the Record with host `198.0.0.1`, the bracket contents
`01/Jul/1995:00:00:01 -0400` as timestamp and the quote contents
`GET /index.html HTTP/1.0` as request captured verbatim, status code
200 and bytes 1024. -/
theorem parse_sample_line :
    parse_log_line
        "198.0.0.1 - - [01/Jul/1995:00:00:01 -0400] \"GET /index.html HTTP/1.0\" 200 1024" =
      .ok (some { host := "198.0.0.1", timestamp := "01/Jul/1995:00:00:01 -0400",
                  request := "GET /index.html HTTP/1.0", http_reply_code := 200,
                  bytes := 1024 }) :=
  rfl

/-- C9: the parser is total and exception-free: on every input string
it returns a Record or the no-match signal, never an escaping
exception — the integer conversions in the match branch cannot fail
because the pattern guarantees a three-digit status group and an
all-digits-or-dash bytes group. -/
theorem parse_log_line_total (line : String) : ∃ v, parse_log_line line = .ok v := by
  rcases hm : regexMatch line with _ | g
  · exact ⟨none, by unfold parse_log_line; rw [hm]⟩
  · obtain ⟨h4, h5⟩ := regexMatch_ok hm
    obtain ⟨r, hr, -, -⟩ := parse_groups_ok h4 h5
    refine ⟨some r, ?_⟩
    rw [parse_log_line_of_match hm, hr]
    rfl

/-- C5: every Record the parser accepts has a non-negative bytes
field, and whenever the byte token of the line (capture group 5) is
the single character `-`, the bytes field is exactly 0. -/
theorem parse_bytes_nonneg_dash_zero {line : String} {r : Record} {g : Groups}
    (hp : parse_log_line line = .ok (some r)) (hg : regexMatch line = some g) :
    0 ≤ r.bytes ∧ (g.g5 = "-" → r.bytes = 0) := by
  obtain ⟨h4, h5⟩ := regexMatch_ok hg
  obtain ⟨r2, hr2, hnn, hdash⟩ := parse_groups_ok h4 h5
  have heq : parse_log_line line = .ok (some r2) := by
    rw [parse_log_line_of_match hg, hr2]
    rfl
  rw [heq] at hp
  injection hp with hp1
  injection hp1 with hp2
  subst hp2
  exact ⟨hnn, hdash⟩

/-- Witness for C5, at a line whose byte token is `-`. -/
theorem parse_bytes_nonneg_dash_zero_witness :
    0 ≤ (Record.mk "h" "t" "r" 200 0).bytes ∧
      ((Groups.mk "h" "t" "r" "200" "-").g5 = "-" →
        (Record.mk "h" "t" "r" 200 0).bytes = 0) :=
  @parse_bytes_nonneg_dash_zero "h - - [t] \"r\" 200 -"
    (Record.mk "h" "t" "r" 200 0) (Groups.mk "h" "t" "r" "200" "-") rfl rfl

theorem ingestAux_skips {bad : String} (hbad : parse_log_line bad = .ok none) :
    ∀ (pre suf : List String) (acc : List Record),
      ingestAux acc (pre ++ bad :: suf) = ingestAux acc (pre ++ suf) := by
  intro pre
  induction pre with
  | nil =>
      intro suf acc
      rw [List.nil_append, List.nil_append]
      simp [ingestAux, hbad]
  | cons p pre ih =>
      intro suf acc
      rw [List.cons_append, List.cons_append]
      simp only [ingestAux]
      cases hp : parse_log_line p with
      | error e => simp [hp]
      | ok v =>
          cases v with
          | none =>
              simp only [hp]
              exact ih suf acc
          | some r =>
              simp only [hp]
              exact ih suf (acc ++ [r])

/-- C6: a line the pattern rejects produces no Record and leaves the
Ingestion Driver's accumulated sequence unchanged — it is dropped
silently and the pipeline continues over the surrounding lines. -/
theorem unmatched_line_dropped {bad : String} (hbad : parse_log_line bad = .ok none)
    (pre suf : List String) :
    parsed_data (pre ++ bad :: suf) = parsed_data (pre ++ suf) :=
  ingestAux_skips hbad pre suf []

/-- Witness for C6: dropping a malformed line after one good line. -/
theorem unmatched_line_dropped_witness :
    parsed_data ["h - - [t] \"r\" 200 5", "malformed"] =
      parsed_data ["h - - [t] \"r\" 200 5"] :=
  @unmatched_line_dropped "malformed" rfl ["h - - [t] \"r\" 200 5"] []

/-- C8: serializing a Record to the intermediate exchange form (as the
Ingestion Driver writes it) and reading it back (as the Fan-out Writer
loads it) restores every field of the Record. -/
theorem exchange_round_trip (r : Record) : ofEntry (toEntry r) = some r :=
  rfl

/-- C3 counterexample: the deduplication key is not the host
concatenated with the timestamp (whitespace collapsed) — the writer
joins them with a colon, so for host `h` and timestamp `t` the key is
`h:t`, not `ht` as the claim states. -/
theorem dedup_key_plain_concat_refuted :
    dedupKey (toEntry ⟨"h", "t", "q", 200, 0⟩) = some "h:t" ∧
      sanitize_key ("h" ++ "t") = "ht" ∧ ("h:t" : String) ≠ "ht" :=
  ⟨rfl, rfl, by decide⟩

/-- C3 amended: the deduplication key is the host, a literal colon,
then the timestamp, with every maximal whitespace run replaced by a
single underscore; it is a pure function of (host, timestamp),
unaffected by the other fields. -/
theorem dedup_key_colon_join (r r2 : Record)
    (hh : r.host = r2.host) (hts : r.timestamp = r2.timestamp) :
    dedupKey (toEntry r) = some (sanitize_key (r.host ++ ":" ++ r.timestamp)) ∧
      dedupKey (toEntry r) = dedupKey (toEntry r2) := by
  refine ⟨rfl, ?_⟩
  have e1 : dedupKey (toEntry r) = some (sanitize_key (r.host ++ ":" ++ r.timestamp)) := rfl
  have e2 : dedupKey (toEntry r2) = some (sanitize_key (r2.host ++ ":" ++ r2.timestamp)) := rfl
  rw [e1, e2, hh, hts]

/-- Witness for C3 amended: whitespace runs in host and timestamp
collapse to single underscores and the request field is irrelevant. -/
theorem dedup_key_colon_join_witness :
    dedupKey (toEntry ⟨"a b", "c  d", "x", 1, 2⟩) = some "a_b:c_d" ∧
      dedupKey (toEntry ⟨"a b", "c  d", "x", 1, 2⟩) =
        dedupKey (toEntry ⟨"a b", "c  d", "y", 3, 4⟩) :=
  dedup_key_colon_join ⟨"a b", "c  d", "x", 1, 2⟩ ⟨"a b", "c  d", "y", 3, 4⟩ rfl rfl

/-- C1 (divergence): the relational write never inserts the Record's
values — the writer reads the keys `status` and `bytes_sent`, which
the exchange form does not contain (it has `http_reply_code` and
`bytes`), so the lookup fails (`KeyError`), the run aborts before the
commit and the table retains no row for any Record. -/
theorem relational_write_reads_absent_keys (r : Record) :
    lookupJ "status" (toEntry r) = none ∧
      lookupJ "bytes_sent" (toEntry r) = none ∧
      (load_data_to_in_memory_db [toEntry r]).1.nasa_logs = [] ∧
      (load_data_to_in_memory_db [toEntry r]).2 = false :=
  ⟨rfl, rfl, rfl, rfl⟩

/-- C2 (divergence): on two Records sharing host and timestamp but
differing in request, the writer errors out with no row retained (the
claim says it never errors and keeps the first row); moreover the
schema of `create_pg_table` declares no uniqueness constraint over the
data columns, so `ON CONFLICT DO NOTHING` never fires: even two
identical value tuples are both inserted and retained. -/
theorem relational_dedup_scenario_fails :
    sampleRec1.host = sampleRec2.host ∧
      sampleRec1.timestamp = sampleRec2.timestamp ∧
      sampleRec1.request ≠ sampleRec2.request ∧
      sampleRun.1.nasa_logs = [] ∧
      sampleRun.2 = false ∧
      pgInsert (pgInsert [] (.s "h") (.s "t") (.s "GET /a HTTP/1.0") (.i 200) (.i 1))
          (.s "h") (.s "t") (.s "GET /a HTTP/1.0") (.i 200) (.i 1) =
        [⟨1, .s "h", .s "t", .s "GET /a HTTP/1.0", .i 200, .i 1⟩,
         ⟨2, .s "h", .s "t", .s "GET /a HTTP/1.0", .i 200, .i 1⟩] :=
  ⟨rfl, rfl, by decide, rfl, rfl, rfl⟩

/-- C7 (divergence): after the writer processes two Records with the
same deduplication key, the key-value stores hold the data of the
first Record, not the last — the relational insert of the first
iteration raises `KeyError`, aborting the loop before the second
Record is ever written. -/
theorem kv_stores_retain_first_on_abort :
    dedupKey (toEntry sampleRec1) = some "h:t" ∧
      dedupKey (toEntry sampleRec2) = some "h:t" ∧
      sampleRun.2 = false ∧
      lookupStore "h:t" sampleRun.1.redis_simple_client = some (toEntry sampleRec1) ∧
      lookupStore "h:t" sampleRun.1.memcached_client = some (toEntry sampleRec1) ∧
      lookupStore "h:t" sampleRun.1.redis_client = some (toEntry sampleRec1) ∧
      toEntry sampleRec1 ≠ toEntry sampleRec2 :=
  ⟨rfl, rfl, rfl, rfl, rfl, rfl, by decide⟩

/-- C10 counterexample: a line whose beginning conforms to the shape
still yields a Record when characters are appended, but a trailing
digit extends the greedy bytes token and changes the bytes field, so
trailing characters can influence a field. -/
theorem trailing_digit_changes_bytes :
    parse_log_line "h - - [t] \"r\" 200 5" = .ok (some ⟨"h", "t", "r", 200, 5⟩) ∧
      parse_log_line "h - - [t] \"r\" 200 57" = .ok (some ⟨"h", "t", "r", 200, 57⟩) ∧
      (Record.mk "h" "t" "r" 200 57) ≠ (Record.mk "h" "t" "r" 200 5) :=
  ⟨rfl, rfl, by decide⟩

/-- C10 amended: a line whose beginning decomposes into the conforming
shape (non-empty non-whitespace host, ` - - [`, timestamp free of `]`
and newline, `] "`, request free of `"` and newline, `" `, three
digits, a space, and a digits-or-dash bytes token) yields a Record for
arbitrary trailing characters, and the trailing characters influence
no field provided the bytes token is `-` or the first trailing
character is not a digit (a trailing digit would extend the greedy
bytes token). -/
theorem prefix_match_stable {h t q : List Char} {d1 d2 d3 : Char} {b extra : List Char}
    (hh1 : h ≠ []) (hh2 : ∀ c ∈ h, pyIsSpace c = false)
    (ht : ∀ c ∈ t, c ≠ ']' ∧ c ≠ '\n')
    (hq : ∀ c ∈ q, c ≠ '\"' ∧ c ≠ '\n')
    (h1 : d1.isDigit = true) (h2 : d2.isDigit = true) (h3 : d3.isDigit = true)
    (hb : b = ['-'] ∨ (b ≠ [] ∧ b.all Char.isDigit = true))
    (hx : b = ['-'] ∨ (∀ c, extra.head? = some c → c.isDigit = false)) :
    parse_log_line ⟨h ++ ' ' :: '-' :: ' ' :: '-' :: ' ' :: '[' ::
        (t ++ ']' :: ' ' :: '\"' :: (q ++ '\"' :: ' ' ::
          (d1 :: d2 :: d3 :: ' ' :: (b ++ extra))))⟩ =
      parse_log_line ⟨h ++ ' ' :: '-' :: ' ' :: '-' :: ' ' :: '[' ::
        (t ++ ']' :: ' ' :: '\"' :: (q ++ '\"' :: ' ' ::
          (d1 :: d2 :: d3 :: ' ' :: b)))⟩ ∧
    parse_log_line ⟨h ++ ' ' :: '-' :: ' ' :: '-' :: ' ' :: '[' ::
        (t ++ ']' :: ' ' :: '\"' :: (q ++ '\"' :: ' ' ::
          (d1 :: d2 :: d3 :: ' ' :: b)))⟩ =
      .ok (some ⟨⟨h⟩, ⟨t⟩, ⟨q⟩, digitsVal [d1, d2, d3],
        if b = ['-'] then 0 else digitsVal b⟩) := by
  have hnoex := @parse_of_shape h t q d1 d2 d3 b [] hh1 hh2 ht hq h1 h2 h3 hb
    (Or.inr (fun c hc => absurd hc (by simp)))
  rw [List.append_nil] at hnoex
  exact ⟨(parse_of_shape hh1 hh2 ht hq h1 h2 h3 hb hx).trans hnoex.symm, hnoex⟩

/-- Witness for C10 amended: appending `x` after the bytes token of a
conforming line changes nothing. -/
theorem prefix_match_stable_witness :
    parse_log_line "h - - [t] \"r\" 200 5x" = parse_log_line "h - - [t] \"r\" 200 5" ∧
      parse_log_line "h - - [t] \"r\" 200 5" = .ok (some ⟨"h", "t", "r", 200, 5⟩) :=
  @prefix_match_stable ['h'] ['t'] ['r'] '2' '0' '0' ['5'] ['x']
    (by decide) (by decide) (by decide) (by decide) rfl rfl rfl
    (Or.inr ⟨by decide, rfl⟩)
    (Or.inr (fun c hc => by
      injection hc with h2
      rw [← h2]
      decide))

end NasaLogs

